import Mathlib

/-!
# Verification of the agricultura-colombia data pipeline

A shallow embedding of the pandas-based pipeline in `src/utils/func_utils.py`
(`DataManager.fix_string_case`, `DataManager.geocode_dataframe`) and
`src/utils/metrics.py` (`MetricsComputation.missing_values`,
`MetricsComputation.zero_values`, `MetricsComputation.grouped_table`),
together with theorems settling the specified properties.

A pandas DataFrame is modelled as a header (list of column names) plus a list
of rows; each cell is a string, a rational number, or null (NaN).  Machine
floats are modelled by rationals; the NaN produced by taking the mean of an
empty column is modelled by `Option`.
-/

/-- A cell of a DataFrame: a string, a number (floats modelled as rationals),
or null (None / NaN). -/
inductive Value where
  | vStr : String → Value
  | vNum : ℚ → Value
  | vNull : Value
deriving DecidableEq, Repr

open Value

/-- A DataFrame: column names plus rows of cells (row-major). -/
structure DF where
  cols : List String
  rows : List (List Value)
deriving DecidableEq, Repr

/-- Well-formedness: every row has one cell per column. -/
def DF.WF (df : DF) : Prop := ∀ r ∈ df.rows, r.length = df.cols.length

instance (df : DF) : Decidable df.WF := by
  unfold DF.WF; infer_instance

/-- Index of a column name in a header (first occurrence), as pandas column
lookup does. -/
def colIdx : List String → String → Option ℕ
  | [], _ => none
  | c :: cs, d => if c = d then some 0 else (colIdx cs d).map (· + 1)

/-- The cell of a row under a column name (null when the column is absent). -/
def getVal (cols : List String) (row : List Value) (c : String) : Value :=
  match colIdx cols c with
  | some i => row.getD i vNull
  | none => vNull

/-- The values of the j-th column, top to bottom. -/
def colAt (df : DF) (j : ℕ) : List Value :=
  df.rows.map (fun r => r.getD j vNull)

/-- The values of a named column, top to bottom. -/
def colByName (df : DF) (c : String) : List Value :=
  df.rows.map (fun r => getVal df.cols r c)

/-- Column assignment `df[c] = vals`: replaces the column in place when the
name exists, otherwise appends it on the right (pandas semantics). -/
def setCol (df : DF) (c : String) (vals : List Value) : DF :=
  match colIdx df.cols c with
  | some i => ⟨df.cols, List.zipWith (fun r v => r.set i v) df.rows vals⟩
  | none => ⟨df.cols ++ [c], List.zipWith (fun r v => r ++ [v]) df.rows vals⟩

/-- First-seen deduplication, as `pandas.Series.unique` (keeps the first
occurrence of each value, in order of first appearance). -/
def dedupFS {α : Type} [DecidableEq α] : List α → List α
  | [] => []
  | x :: xs => x :: dedupFS (xs.filter (fun y => decide (y ≠ x)))
termination_by l => l.length
decreasing_by
  simp only [List.length_cons]
  exact Nat.lt_succ_of_le (List.length_filter_le _ _)

/-- Pandas element-wise `+` on cells, on its non-raising path: strings
concatenate, and a null operand is masked to NaN without evaluating the op.
A non-null non-string operand meeting a string makes pandas raise TypeError
instead of producing a cell; that error path is not a value of this function
— it is captured by `keyBuildRaises` below, and the geocode theorems either
assume text-typed key columns (`textTypedKeyCols`) or exhibit the raise. -/
def vcat : Value → Value → Value
  | vStr a, vStr b => vStr (a ++ b)
  | _, _ => vNull

/-- The Location Key of a row, as built on line 134 of func_utils.py:
`municipio + ", " + departamento + ", Colombia"`. -/
def keyOf (cols : List String) (row : List Value) : Value :=
  vcat (vcat (vcat (getVal cols row "municipio") (vStr ", "))
    (getVal cols row "departamento")) (vStr ", Colombia")

/-- Precondition tested on line 132 of func_utils.py. -/
def hasCols (df : DF) : Prop :=
  "municipio" ∈ df.cols ∧ "departamento" ∈ df.cols

instance (df : DF) : Decidable (hasCols df) := by
  unfold hasCols; infer_instance

/-- The latitude cell produced from one geocoder answer
(`i_coordinate.latitude if i_coordinate else None`). -/
def latVal (geo : Value → Option (ℚ × ℚ)) (k : Value) : Value :=
  match geo k with
  | some p => vNum p.1
  | none => vNull

/-- The longitude cell produced from one geocoder answer. -/
def lonVal (geo : Value → Option (ℚ × ℚ)) (k : Value) : Value :=
  match geo k with
  | some p => vNum p.2
  | none => vNull

/-- Embeds `location_df` (lines 148-157 of func_utils.py): one row per looked-up
key, holding the key and its optional coordinates. -/
def locTable (geo : Value → Option (ℚ × ℚ)) (ks : List Value) : DF :=
  ⟨["location", "latitude", "longitude"],
    ks.map (fun k => [k, latVal geo k, lonVal geo k])⟩

/-- Concatenation of the images of a list under a list-valued function. -/
def catMap {α β : Type} (f : α → List β) : List α → List β
  | [] => []
  | a :: as => f a ++ catMap f as

/-- Embeds `left.merge(right, left_on=lk, right_on=rk, how='left')`: every left row
is paired with each right row whose key matches (in right order); an
unmatched left row is padded with nulls.  Columns present on both sides are
suffixed `_x` (left) and `_y` (right), as pandas does. -/
def leftMerge (l r : DF) (lk rk : String) : DF :=
  { cols := l.cols.map (fun c => if c ∈ r.cols then c ++ "_x" else c)
      ++ r.cols.map (fun c => if c ∈ l.cols then c ++ "_y" else c),
    rows := catMap (fun row =>
      let k := getVal l.cols row lk
      let ms := r.rows.filter (fun rr => decide (getVal r.cols rr rk = k))
      if ms.isEmpty then [row ++ List.replicate r.cols.length vNull]
      else ms.map (fun rr => row ++ rr)) l.rows }

/-- The outputs of one `geocode_dataframe` call: the returned frame, the
sequence of external lookups performed (the rate limiter serializes them but
does not change which calls happen), and the console messages printed. -/
structure GeoResult where
  out : DF
  calls : List Value
  msgs : List String
deriving Repr

/-- Embeds `DataManager.geocode_dataframe` (func_utils.py lines 114-170) applied to
an explicit frame.  The external geocoder (a rate-limited
`Nominatim.geocode`) is the parameter `geo`; `none` models a failed or empty
lookup.  This function is the non-raising path: when the key concatenation
on line 134 raises TypeError (see `keyBuildRaises`), the code returns no
frame at all, and the theorems below carry the corresponding hypothesis. -/
def geocode_df (geo : Value → Option (ℚ × ℚ)) (df : DF) : GeoResult :=
  if hasCols df then
    let keys := df.rows.map (keyOf df.cols)
    let df1 := setCol df "geolocalizacion" keys
    let locs := dedupFS (colByName df1 "geolocalizacion")
    { out := leftMerge df1 (locTable geo locs) "geolocalizacion" "location",
      calls := locs,
      msgs := [] }
  else
    { out := df,
      calls := [],
      msgs := ["DataFrame does not contain required columns: municipio and departamento"] }

/-- The mutable state of a `DataManager`: its managed frame. -/
structure ManagerState where
  dataframe : DF
deriving DecidableEq, Repr

/-- Embeds `geocode_dataframe()` called without argument on the managed frame.
The local name `dataframe` starts as an alias of `self.dataframe`; the key
column assignment (line 134) mutates the managed frame in place; the merge
(line 160) rebinds the local name to a fresh frame, so the identity test
`dataframe is self.dataframe` on line 162 is evaluated against the merge
result and is always False: the managed frame keeps only the key column. -/
def geocode_managed (geo : Value → Option (ℚ × ℚ)) (st : ManagerState) :
    ManagerState × GeoResult :=
  if hasCols st.dataframe then
    (⟨setCol st.dataframe "geolocalizacion"
        (st.dataframe.rows.map (keyOf st.dataframe.cols))⟩,
      geocode_df geo st.dataframe)
  else
    (st, geocode_df geo st.dataframe)

/-! ## Text normalizer (`DataManager.fix_string_case`, lines 76-112) -/

/-- The `unidecode` transliteration, restricted per character to ASCII (kept
as-is) and the accented Latin letters of Spanish-language data; other
codepoints (none occur in this data) transliterate to the empty string. -/
def unidecodeChar (c : Char) : String :=
  match c with
  | 'á' => "a" | 'é' => "e" | 'í' => "i" | 'ó' => "o" | 'ú' => "u"
  | 'Á' => "A" | 'É' => "E" | 'Í' => "I" | 'Ó' => "O" | 'Ú' => "U"
  | 'ñ' => "n" | 'Ñ' => "N" | 'ü' => "u" | 'Ü' => "U"
  | 'à' => "a" | 'è' => "e" | 'ì' => "i" | 'ò' => "o" | 'ù' => "u"
  | _ => if c.toNat < 128 then String.singleton c else ""

/-- The `unidecode` transliteration of a whole string. -/
def unidecodeStr (s : String) : String :=
  String.join (s.data.map unidecodeChar)

/-- Python `str.lower` (the data is ASCII once transliterated). -/
def pyLower (s : String) : String :=
  String.mk (s.data.map Char.toLower)

/-- Python `str.capitalize`: first character upper-cased, the rest
lower-cased. -/
def pyCapitalize (s : String) : String :=
  match s.data with
  | [] => ""
  | c :: rest => String.mk (c.toUpper :: rest.map Char.toLower)

/-- The inner `remove_accents` helper (lines 86-99): transliterates strings,
returns every other value unchanged. -/
def remove_accents : Value → Value
  | vStr s => vStr (unidecodeStr s)
  | v => v

/-- Embeds `Series.str.lower()` elementwise: lower-cases strings and maps every
non-string element (numbers included) to NaN. -/
def strLowerV : Value → Value
  | vStr s => vStr (pyLower s)
  | _ => vNull

/-- Embeds `Series.str.capitalize()` elementwise, same non-string behaviour. -/
def strCapitalizeV : Value → Value
  | vStr s => vStr (pyCapitalize s)
  | _ => vNull

/-- The per-cell pipeline applied to an object-dtype column (lines 106-110):
`remove_accents`, then `.str.lower()`, then `.str.capitalize()`. -/
def fixColVal (v : Value) : Value :=
  strCapitalizeV (strLowerV (remove_accents v))

/-- Whether a cell is a string. -/
def isStrV : Value → Bool
  | vStr _ => true
  | _ => false

/-- Whether column `j` has pandas dtype `object`: in this pipeline (data read
from JSON) a column is object-typed exactly when it holds at least one
string. -/
def objFlag (df : DF) (j : ℕ) : Bool :=
  df.rows.any (fun r => isStrV (r.getD j vNull))

/-- A `List.map` that passes the position along. -/
def mapWithIdx {α β : Type} (f : ℕ → α → β) : ℕ → List α → List β
  | _, [] => []
  | n, a :: as => f n a :: mapWithIdx f (n + 1) as

/-- Embeds `DataManager.fix_string_case` (lines 76-112): every object-dtype column
is passed through `remove_accents`, `.str.lower()`, `.str.capitalize()`;
other columns are untouched.  (The Python code iterates over columns; this
is the same transformation written row-major.) -/
def fix_string_case (df : DF) : DF :=
  ⟨df.cols,
    df.rows.map (fun r =>
      mapWithIdx (fun j v => if objFlag df j then fixColVal v else v) 0 r)⟩

/-- Calling `fix_string_case(self.dataframe)` mutates the managed frame in place and
returns it. -/
def fix_managed (st : ManagerState) : ManagerState × DF :=
  (⟨fix_string_case st.dataframe⟩, fix_string_case st.dataframe)

/-! ## Metrics (`MetricsComputation`, metrics.py) -/

/-- Round-half-to-even to an integer, as numpy/pandas rounding does on the
scaled value. -/
def rhe (x : ℚ) : ℤ :=
  if x - ⌊x⌋ < 1/2 then ⌊x⌋
  else if 1/2 < x - ⌊x⌋ then ⌊x⌋ + 1
  else if Even ⌊x⌋ then ⌊x⌋ else ⌊x⌋ + 1

/-- Embeds `Series.round(2)`: round half to even at two decimals. -/
def round2 (x : ℚ) : ℚ := (rhe (x * 100) : ℚ) / 100

/-- Python `str()` of a non-negative float holding at most two decimals, as
produced by `round(2)` (`str(0.0) = "0.0"`, `str(12.3) = "12.3"`,
`str(12.34) = "12.34"`). -/
def pyFloatStr (q : ℚ) : String :=
  if (q * 100).num.toNat % 100 = 0 then
    toString ((q * 100).num.toNat / 100) ++ ".0"
  else if (q * 100).num.toNat % 100 % 10 = 0 then
    toString ((q * 100).num.toNat / 100) ++ "."
      ++ toString ((q * 100).num.toNat % 100 / 10)
  else
    toString ((q * 100).num.toNat / 100) ++ "."
      ++ (if (q * 100).num.toNat % 100 < 10 then "0" else "")
      ++ toString ((q * 100).num.toNat % 100)

/-- Number of null cells in a column. -/
def nullCount (col : List Value) : ℕ :=
  (col.filter (fun v => decide (v = vNull))).length

/-- The value of `isnull().mean() * 100`, rounded to two decimals, for one column:
`none` models the NaN that the mean of a zero-row column produces. -/
def missingPctCol (col : List Value) : Option ℚ :=
  if col.length = 0 then none
  else some (round2 ((nullCount col : ℚ) / (col.length : ℚ) * 100))

/-- The displayed entry `str(pct) + "%"` for one column (`str(nan)` is
`"nan"`). -/
def missingDisplay (col : List Value) : String :=
  match missingPctCol col with
  | none => "nan%"
  | some q => pyFloatStr q ++ "%"

/-- Embeds `MetricsComputation.missing_values` (lines 71-78): the per-column
percentage strings, in column order. -/
def missing_values (df : DF) : List (String × String) :=
  mapWithIdx (fun j c => (c, missingDisplay (colAt df j))) 0 df.cols

/-- Whether a cell compares equal to 0 under `== 0`: true exactly for the
number 0 (strings and NaN compare False). -/
def isZeroV (v : Value) : Bool := decide (v = vNum 0)

/-- Number of cells equal to 0 in a column. -/
def zeroCount (col : List Value) : ℕ :=
  (col.filter isZeroV).length

/-- The value of `(col == 0).mean() * 100`, rounded to two decimals (NaN on a zero-row
column, modelled by `none`). -/
def zeroPctCol (col : List Value) : Option ℚ :=
  if col.length = 0 then none
  else some (round2 ((zeroCount col : ℚ) / (col.length : ℚ) * 100))

/-- The displayed entry for one column of `zero_values`. -/
def zeroDisplay (col : List Value) : String :=
  match zeroPctCol col with
  | none => "nan%"
  | some q => pyFloatStr q ++ "%"

/-- Embeds `MetricsComputation.zero_values` (lines 81-89). -/
def zero_values (df : DF) : List (String × String) :=
  mapWithIdx (fun j c => (c, zeroDisplay (colAt df j))) 0 df.cols

/-! ## Grouped aggregation (`MetricsComputation.grouped_table`, lines 104-124) -/

/-- Whether a cell is a number. -/
def isNumV : Value → Bool
  | vNum _ => true
  | _ => false

/-- Whether a cell can take part in the string concatenation of line 134
without raising: a string, or a null (which pandas masks to NaN). -/
def textCell : Value → Bool
  | vStr _ => true
  | vNull => true
  | vNum _ => false

/-- Whether line 134 of func_utils.py,
`dataframe['municipio'] + ", " + dataframe['departamento'] + ", Colombia"`,
raises TypeError instead of producing the key column.  The first `+` adds a
string scalar to the municipio column: it raises unless that column is
object-typed text — a numeric cell raises, and so does a nonempty column
holding no string at all (an all-null column is float64, and float64 + str
raises; a column of no rows raises nothing).  The later `+`s operate on the
object-typed intermediate, where null cells are masked and a string cell
meeting a numeric departamento cell in the same row raises. -/
def keyBuildRaises (df : DF) : Bool :=
  (df.rows.any (fun r => isNumV (getVal df.cols r "municipio"))
    || (!df.rows.isEmpty
        && !df.rows.any (fun r => isStrV (getVal df.cols r "municipio"))))
  || df.rows.any (fun r => isStrV (getVal df.cols r "municipio")
      && isNumV (getVal df.cols r "departamento"))

/-- The domain on which line 134 is well-defined: both key columns hold only
text-or-null cells, and the municipio column holds at least one string when
the frame is nonempty (so the column is object-typed, not an all-NaN float
column). -/
def textTypedKeyCols (df : DF) : Prop :=
  (∀ r ∈ df.rows, textCell (getVal df.cols r "municipio") = true
    ∧ textCell (getVal df.cols r "departamento") = true)
  ∧ (df.rows ≠ [] →
      ∃ r ∈ df.rows, isStrV (getVal df.cols r "municipio") = true)

instance (df : DF) : Decidable (textTypedKeyCols df) := by
  unfold textTypedKeyCols
  infer_instance

/-- A concrete geocoder: knows one location, fails on everything else. -/
def geo0 : Value → Option (ℚ × ℚ) :=
  fun v => if v = vStr "Bogota, Cundinamarca, Colombia"
    then some (5, 74) else none

/-- A geocoder whose every lookup fails. -/
def geoN : Value → Option (ℚ × ℚ) := fun _ => none

/-- A concrete well-formed input table with a repeated location. -/
def dfW : DF :=
  ⟨["municipio", "departamento"],
    [[vStr "Bogota", vStr "Cundinamarca"],
     [vStr "Bogota", vStr "Cundinamarca"],
     [vStr "Cali", vStr "Valle del cauca"]]⟩

/-! ## List helper lemmas -/

theorem getD_append_lt (r ext : List Value) (j : ℕ) (h : j < r.length) :
    (r ++ ext).getD j vNull = r.getD j vNull := by
  induction r generalizing j with
  | nil => simp at h
  | cons a as ih =>
    cases j with
    | zero => rfl
    | succ j => exact ih j (by simpa using h)

theorem getD_append_cons (r : List Value) (k : Value) (rest : List Value) :
    (r ++ k :: rest).getD r.length vNull = k := by
  induction r with
  | nil => rfl
  | cons a as ih => simpa using ih

theorem getD_append_idx (r ext : List Value) (j : ℕ) (h : r.length ≤ j) :
    (r ++ ext).getD j vNull = ext.getD (j - r.length) vNull := by
  induction r generalizing j with
  | nil => simp
  | cons a as ih =>
    cases j with
    | zero => simp at h
    | succ j => simpa using ih j (by simpa using h)

theorem getD_set_self (r : List Value) (j : ℕ) (v : Value) (h : j < r.length) :
    (r.set j v).getD j vNull = v := by
  induction r generalizing j with
  | nil => simp at h
  | cons a as ih =>
    cases j with
    | zero => rfl
    | succ j => exact ih j (by simpa using h)

theorem getD_set_ne (r : List Value) (j k : ℕ) (v : Value) (h : j ≠ k) :
    (r.set j v).getD k vNull = r.getD k vNull := by
  induction r generalizing j k with
  | nil => simp
  | cons a as ih =>
    cases j with
    | zero => cases k with
      | zero => exact absurd rfl h
      | succ k => rfl
    | succ j => cases k with
      | zero => rfl
      | succ k => exact ih j k (fun hh => h (by omega))

theorem getD_map_rows (l : List (List Value)) (f : List Value → List Value)
    (i : ℕ) (h : i < l.length) :
    (l.map f).getD i [] = f (l.getD i []) := by
  induction l generalizing i with
  | nil => simp at h
  | cons a as ih =>
    cases i with
    | zero => rfl
    | succ i => exact ih i (by simpa using h)

theorem getD_map_vals (l : List (List Value)) (f : List Value → Value)
    (i : ℕ) (h : i < l.length) :
    (l.map f).getD i vNull = f (l.getD i []) := by
  induction l generalizing i with
  | nil => simp at h
  | cons a as ih =>
    cases i with
    | zero => rfl
    | succ i => exact ih i (by simpa using h)

theorem getD_rows_mem (l : List (List Value)) (i : ℕ) (h : i < l.length) :
    l.getD i [] ∈ l := by
  induction l generalizing i with
  | nil => simp at h
  | cons a as ih =>
    cases i with
    | zero => exact List.mem_cons_self _ _
    | succ i => exact List.mem_cons_of_mem _ (ih i (by simpa using h))

theorem getD_zipWith_rows (f : List Value → Value → List Value)
    (l1 : List (List Value)) (l2 : List Value) (i : ℕ)
    (h1 : i < l1.length) (h2 : i < l2.length) :
    (List.zipWith f l1 l2).getD i [] = f (l1.getD i []) (l2.getD i vNull) := by
  induction l1 generalizing l2 i with
  | nil => simp at h1
  | cons a as ih =>
    cases l2 with
    | nil => simp at h2
    | cons b bs =>
      cases i with
      | zero => rfl
      | succ i => exact ih bs i (by simpa using h1) (by simpa using h2)

theorem length_mapWithIdx {α β : Type} (f : ℕ → α → β) :
    ∀ (n : ℕ) (l : List α), (mapWithIdx f n l).length = l.length := by
  intro n l
  induction l generalizing n with
  | nil => rfl
  | cons a as ih => simp [mapWithIdx, ih]

theorem getD_mapWithIdx (f : ℕ → Value → Value) :
    ∀ (l : List Value) (n j : ℕ), j < l.length →
      (mapWithIdx f n l).getD j vNull = f (n + j) (l.getD j vNull) := by
  intro l
  induction l with
  | nil => intro n j h; simp at h
  | cons a as ih =>
    intro n j h
    cases j with
    | zero => simp [mapWithIdx]
    | succ j =>
      have := ih (n + 1) j (by simpa using h)
      simpa [mapWithIdx, Nat.add_assoc, Nat.add_comm 1 j] using this

theorem catMap_singleton {α β : Type} (f : α → List β) (g : α → β)
    (l : List α) (h : ∀ x ∈ l, f x = [g x]) : catMap f l = l.map g := by
  induction l with
  | nil => rfl
  | cons a as ih =>
    simp only [catMap, h a (List.mem_cons_self a as), List.map_cons,
      List.singleton_append]
    rw [ih (fun x hx => h x (List.mem_cons_of_mem a hx))]

theorem zipWith_append_map_key (l : List (List Value))
    (g : List Value → Value) :
    List.zipWith (fun r v => r ++ [v]) l (l.map g)
      = l.map (fun r => r ++ [g r]) := by
  induction l with
  | nil => rfl
  | cons a as ih => simp [ih]

theorem zipWith_map_map {α β γ δ : Type} (f : β → γ → δ) (g : α → β)
    (h : α → γ) (l : List α) :
    List.zipWith f (l.map g) (l.map h) = l.map (fun a => f (g a) (h a)) := by
  induction l with
  | nil => rfl
  | cons a as ih => simp [ih]

theorem map_ext_to_zipWith (geo : Value → Option (ℚ × ℚ))
    (gv : List Value → Value) :
    ∀ (rs : List (List Value)) (ks : List Value), rs.map gv = ks →
      rs.map (fun r => r ++ [gv r, latVal geo (gv r), lonVal geo (gv r)])
        = List.zipWith (fun r k => r ++ [k, latVal geo k, lonVal geo k]) rs ks := by
  intro rs
  induction rs with
  | nil => intro ks h; simp at h; simp [h]
  | cons a as ih =>
    intro ks h
    cases ks with
    | nil => simp at h
    | cons k kt =>
      simp only [List.map_cons, List.cons.injEq] at h
      simp [List.zipWith, h.1, ih kt h.2]

theorem set_append_cons_self (r : List Value) (k : Value) (rest : List Value) :
    (r ++ k :: rest).set r.length k = r ++ k :: rest := by
  induction r with
  | nil => rfl
  | cons a as ih => simp [ih]

/-! ## Properties of first-seen deduplication -/

theorem mem_dedupFS {α : Type} [DecidableEq α] (a : α) :
    ∀ l : List α, a ∈ dedupFS l ↔ a ∈ l := by
  intro l
  induction l using dedupFS.induct with
  | case1 => simp [dedupFS]
  | case2 x xs ih =>
    rw [dedupFS]
    by_cases hax : a = x
    · subst hax; simp
    · simp only [List.mem_cons, ih, List.mem_filter, decide_eq_true_eq]
      constructor
      · rintro (h | ⟨h, _⟩)
        · exact Or.inl h
        · exact Or.inr h
      · rintro (h | h)
        · exact Or.inl h
        · exact Or.inr ⟨h, hax⟩

theorem nodup_dedupFS {α : Type} [DecidableEq α] :
    ∀ l : List α, (dedupFS l).Nodup := by
  intro l
  induction l using dedupFS.induct with
  | case1 => simp [dedupFS]
  | case2 x xs ih =>
    rw [dedupFS]
    refine List.Nodup.cons ?_ ih
    intro hmem
    rw [mem_dedupFS] at hmem
    rw [List.mem_filter] at hmem
    simp at hmem

theorem sublist_dedupFS {α : Type} [DecidableEq α] :
    ∀ l : List α, List.Sublist (dedupFS l) l := by
  intro l
  induction l using dedupFS.induct with
  | case1 => simp [dedupFS]
  | case2 x xs ih =>
    rw [dedupFS]
    exact List.Sublist.cons₂ x (ih.trans (List.filter_sublist xs))

theorem length_dedupFS_eq_card {α : Type} [DecidableEq α] (l : List α) :
    (dedupFS l).length = l.toFinset.card := by
  have h1 : (dedupFS l).toFinset = l.toFinset := by
    apply Finset.ext
    intro a
    simp [List.mem_toFinset, mem_dedupFS]
  rw [← h1, List.toFinset_card_of_nodup (nodup_dedupFS l)]

theorem filter_eq_of_nodup {α : Type} [DecidableEq α] {l : List α} {a : α}
    (hn : l.Nodup) (ha : a ∈ l) :
    l.filter (fun x => decide (x = a)) = [a] := by
  induction l with
  | nil => simp at ha
  | cons b bs ih =>
    have hbb : b ∉ bs := (List.nodup_cons.mp hn).1
    by_cases hba : b = a
    · have hout : bs.filter (fun x => decide (x = a)) = [] := by
        rw [List.filter_eq_nil_iff]
        intro x hx
        simp only [decide_eq_true_eq]
        intro hxe
        apply hbb
        rw [hba, ← hxe]
        exact hx
      simp [List.filter_cons, hba, hout]
    · have hmem : a ∈ bs := by
        rcases List.mem_cons.mp ha with h | h
        · exact absurd h.symm hba
        · exact h
      have := ih (List.nodup_cons.mp hn).2 hmem
      simp [List.filter_cons, hba, this]

/-! ## Properties of column lookup -/

theorem colIdx_lt {l : List String} {c : String} {i : ℕ}
    (h : colIdx l c = some i) : i < l.length := by
  induction l generalizing i with
  | nil => simp [colIdx] at h
  | cons a as ih =>
    rw [colIdx] at h
    by_cases hac : a = c
    · rw [if_pos hac] at h
      simp only [Option.some.injEq] at h
      simp only [List.length_cons]
      omega
    · rw [if_neg hac] at h
      simp only [Option.map_eq_some'] at h
      obtain ⟨j, hj, hji⟩ := h
      have := ih hj
      simp only [List.length_cons]
      omega

theorem colIdx_eq_none {l : List String} {c : String} :
    colIdx l c = none ↔ c ∉ l := by
  induction l with
  | nil => simp [colIdx]
  | cons a as ih =>
    show (if a = c then some 0 else (colIdx as c).map (· + 1)) = none ↔ c ∉ a :: as
    by_cases hac : a = c
    · simp [hac]
    · rw [if_neg hac]
      simp [Option.map_eq_none', ih, Ne.symm hac]

theorem colIdx_isSome_of_mem {l : List String} {c : String} (h : c ∈ l) :
    ∃ i, colIdx l c = some i := by
  cases hx : colIdx l c with
  | none => exact absurd h (colIdx_eq_none.mp hx)
  | some i => exact ⟨i, rfl⟩

theorem colIdx_append_left {l1 l2 : List String} {c : String} {i : ℕ}
    (h : colIdx l1 c = some i) : colIdx (l1 ++ l2) c = some i := by
  induction l1 generalizing i with
  | nil => simp [colIdx] at h
  | cons a as ih =>
    rw [colIdx] at h
    rw [List.cons_append, colIdx]
    by_cases hac : a = c
    · rwa [if_pos hac] at h ⊢
    · rw [if_neg hac] at h ⊢
      simp only [Option.map_eq_some'] at h ⊢
      obtain ⟨j, hj, hji⟩ := h
      exact ⟨j, ih hj, hji⟩

theorem colIdx_append_right {l1 l2 : List String} {c : String}
    (h : c ∉ l1) : colIdx (l1 ++ l2) c = (colIdx l2 c).map (· + l1.length) := by
  induction l1 with
  | nil => simp
  | cons a as ih =>
    have hac : a ≠ c := fun hEq => h (hEq ▸ List.mem_cons_self a as)
    have has : c ∉ as := fun hmem => h (List.mem_cons_of_mem a hmem)
    rw [List.cons_append, colIdx, if_neg hac, ih has]
    cases colIdx l2 c with
    | none => rfl
    | some j =>
      simp only [Option.map_some', List.length_cons]
      congr 1

theorem getVal_append (cols tail : List String) (row ext : List Value)
    (c : String) {j : ℕ} (hc : colIdx cols c = some j) (hr : j < row.length) :
    getVal (cols ++ tail) (row ++ ext) c = getVal cols row c := by
  unfold getVal
  rw [colIdx_append_left hc, hc]
  exact getD_append_lt row ext j hr

theorem getVal_eq_getD {cols : List String} {c : String} {i : ℕ}
    (h : colIdx cols c = some i) (row : List Value) :
    getVal cols row c = row.getD i vNull := by
  unfold getVal
  rw [h]

theorem getVal_eq_null {cols : List String} {c : String}
    (h : colIdx cols c = none) (row : List Value) :
    getVal cols row c = vNull := by
  unfold getVal
  rw [h]

theorem colIdx_append_self {cols : List String} {c : String}
    (h : colIdx cols c = none) :
    colIdx (cols ++ [c]) c = some cols.length := by
  rw [colIdx_append_right (colIdx_eq_none.mp h)]
  have : colIdx [c] c = some 0 := by
    show (if c = c then some 0 else (colIdx [] c).map (· + 1)) = some 0
    rw [if_pos rfl]
  rw [this, Option.map_some']
  congr 1
  exact Nat.zero_add _

theorem mem_zipWith {α β γ : Type} {f : α → β → γ} {x : γ} :
    ∀ {l1 : List α} {l2 : List β}, x ∈ List.zipWith f l1 l2 →
      ∃ a ∈ l1, ∃ b ∈ l2, x = f a b := by
  intro l1
  induction l1 with
  | nil => intro l2 h; simp at h
  | cons a as ih =>
    intro l2 h
    cases l2 with
    | nil => simp at h
    | cons b bs =>
      rcases List.mem_cons.mp h with h | h
      · exact ⟨a, List.mem_cons_self _ _, b, List.mem_cons_self _ _, h⟩
      · obtain ⟨a', ha, b', hb, hx⟩ := ih h
        exact ⟨a', List.mem_cons_of_mem _ ha, b', List.mem_cons_of_mem _ hb, hx⟩

theorem map_getD_zipWith_append :
    ∀ (rows : List (List Value)) (vals : List Value) (n : ℕ),
      (∀ r ∈ rows, r.length = n) → vals.length = rows.length →
      (List.zipWith (fun r v => r ++ [v]) rows vals).map
        (fun r => r.getD n vNull) = vals := by
  intro rows
  induction rows with
  | nil =>
    intro vals n _ hl
    cases vals with
    | nil => rfl
    | cons v vs => simp at hl
  | cons r rs ih =>
    intro vals n hwf hl
    cases vals with
    | nil => simp at hl
    | cons v vs =>
      have hr : r.length = n := hwf r (List.mem_cons_self _ _)
      simp only [List.zipWith_cons_cons, List.map_cons]
      have hhead : (r ++ [v]).getD n vNull = v := by
        rw [← hr]
        exact getD_append_cons r v []
      rw [hhead]
      rw [ih vs n (fun x hx => hwf x (List.mem_cons_of_mem _ hx)) (by simpa using hl)]

theorem map_getD_zipWith_set :
    ∀ (rows : List (List Value)) (vals : List Value) (j n : ℕ), j < n →
      (∀ r ∈ rows, r.length = n) → vals.length = rows.length →
      (List.zipWith (fun r v => r.set j v) rows vals).map
        (fun r => r.getD j vNull) = vals := by
  intro rows
  induction rows with
  | nil =>
    intro vals j n _ _ hl
    cases vals with
    | nil => rfl
    | cons v vs => simp at hl
  | cons r rs ih =>
    intro vals j n hj hwf hl
    cases vals with
    | nil => simp at hl
    | cons v vs =>
      have hr : r.length = n := hwf r (List.mem_cons_self _ _)
      simp only [List.zipWith_cons_cons, List.map_cons]
      rw [getD_set_self r j v (by omega)]
      rw [ih vs j n hj (fun x hx => hwf x (List.mem_cons_of_mem _ hx)) (by simpa using hl)]

theorem colByName_setCol (df : DF) (c : String) (vals : List Value)
    (hwf : df.WF) (hl : vals.length = df.rows.length) :
    colByName (setCol df c vals) c = vals := by
  unfold colByName setCol
  cases hc : colIdx df.cols c with
  | some i =>
    simp only
    have : ∀ r : List Value, getVal df.cols r c = r.getD i vNull :=
      getVal_eq_getD hc
    rw [List.map_congr_left (fun r _ => this r)]
    exact map_getD_zipWith_set df.rows vals i df.cols.length (colIdx_lt hc) hwf hl
  | none =>
    simp only
    have hidx := colIdx_append_self hc
    have : ∀ r : List Value, getVal (df.cols ++ [c]) r c = r.getD df.cols.length vNull :=
      getVal_eq_getD hidx
    rw [List.map_congr_left (fun r _ => this r)]
    exact map_getD_zipWith_append df.rows vals df.cols.length hwf hl

theorem setCol_rows_length (df : DF) (c : String) (vals : List Value)
    (hl : vals.length = df.rows.length) :
    (setCol df c vals).rows.length = df.rows.length := by
  unfold setCol
  cases colIdx df.cols c with
  | some i => simp [List.length_zipWith, hl]
  | none => simp [List.length_zipWith, hl]

theorem setCol_wf (df : DF) (c : String) (vals : List Value)
    (hwf : df.WF) : (setCol df c vals).WF := by
  unfold setCol
  cases colIdx df.cols c with
  | some i =>
    intro r hr
    obtain ⟨a, ha, b, _, hx⟩ := mem_zipWith hr
    subst hx
    simp [hwf a ha]
  | none =>
    intro r hr
    obtain ⟨a, ha, b, _, hx⟩ := mem_zipWith hr
    subst hx
    simp [hwf a ha]

theorem map_rename_id {l rc : List String} {suf : String}
    (h : ∀ c ∈ l, c ∉ rc) :
    l.map (fun c => if c ∈ rc then c ++ suf else c) = l := by
  conv_rhs => rw [← List.map_id l]
  apply List.map_congr_left
  intro c hc
  rw [if_neg (h c hc)]
  rfl

theorem getVal_mem_colByName (df : DF) (c : String) {row : List Value}
    (h : row ∈ df.rows) : getVal df.cols row c ∈ colByName df c :=
  List.mem_map_of_mem _ h

theorem leftMerge_rows_locTable (df1 : DF) (geo : Value → Option (ℚ × ℚ))
    (locs : List Value) (hn : locs.Nodup)
    (hmem : ∀ row ∈ df1.rows, getVal df1.cols row "geolocalizacion" ∈ locs) :
    (leftMerge df1 (locTable geo locs) "geolocalizacion" "location").rows
      = df1.rows.map (fun row =>
          row ++ [getVal df1.cols row "geolocalizacion",
            latVal geo (getVal df1.cols row "geolocalizacion"),
            lonVal geo (getVal df1.cols row "geolocalizacion")]) := by
  unfold leftMerge
  simp only
  apply catMap_singleton
  intro row hrow
  have hfilter : ((locTable geo locs).rows.filter
      (fun rr => decide (getVal (locTable geo locs).cols rr "location"
        = getVal df1.cols row "geolocalizacion")))
      = [[getVal df1.cols row "geolocalizacion",
          latVal geo (getVal df1.cols row "geolocalizacion"),
          lonVal geo (getVal df1.cols row "geolocalizacion")]] := by
    show ((locs.map (fun k => [k, latVal geo k, lonVal geo k])).filter _) = _
    rw [List.filter_map]
    have hcomp : ((fun rr => decide (getVal (locTable geo locs).cols rr "location"
          = getVal df1.cols row "geolocalizacion"))
        ∘ (fun k => [k, latVal geo k, lonVal geo k]))
        = fun k => decide (k = getVal df1.cols row "geolocalizacion") := by
      funext k
      simp only [Function.comp]
      have hloc : getVal (locTable geo locs).cols
          [k, latVal geo k, lonVal geo k] "location" = k := rfl
      rw [hloc]
    rw [hcomp, filter_eq_of_nodup hn (hmem row hrow)]
    rfl
  simp only [hfilter]
  simp [List.isEmpty]

theorem setCol_fresh (df : DF) (c : String) (vals : List Value)
    (h : colIdx df.cols c = none) :
    setCol df c vals
      = ⟨df.cols ++ [c], List.zipWith (fun r v => r ++ [v]) df.rows vals⟩ := by
  unfold setCol
  rw [h]

theorem geocode_char (geo : Value → Option (ℚ × ℚ)) (df : DF)
    (h : hasCols df) (hwf : df.WF)
    (hg : "geolocalizacion" ∉ df.cols) (hl : "location" ∉ df.cols)
    (hla : "latitude" ∉ df.cols) (hlo : "longitude" ∉ df.cols) :
    (geocode_df geo df).out.cols
        = df.cols ++ ["geolocalizacion", "location", "latitude", "longitude"]
    ∧ (geocode_df geo df).out.rows
        = df.rows.map (fun r => r ++ [keyOf df.cols r, keyOf df.cols r,
            latVal geo (keyOf df.cols r), lonVal geo (keyOf df.cols r)])
    ∧ (geocode_df geo df).calls = dedupFS (df.rows.map (keyOf df.cols)) := by
  have hgnone : colIdx df.cols "geolocalizacion" = none := colIdx_eq_none.mpr hg
  have hklen : (df.rows.map (keyOf df.cols)).length = df.rows.length :=
    List.length_map _ _
  have hcolname : colByName (setCol df "geolocalizacion" (df.rows.map (keyOf df.cols)))
      "geolocalizacion" = df.rows.map (keyOf df.cols) :=
    colByName_setCol df _ _ hwf hklen
  have hdf1 : setCol df "geolocalizacion" (df.rows.map (keyOf df.cols))
      = ⟨df.cols ++ ["geolocalizacion"],
          List.zipWith (fun r v => r ++ [v]) df.rows (df.rows.map (keyOf df.cols))⟩ :=
    setCol_fresh df _ _ hgnone
  have hrows1 : (setCol df "geolocalizacion" (df.rows.map (keyOf df.cols))).rows
      = df.rows.map (fun r => r ++ [keyOf df.cols r]) := by
    rw [hdf1]
    exact zipWith_append_map_key df.rows (keyOf df.cols)
  have hcols1 : (setCol df "geolocalizacion" (df.rows.map (keyOf df.cols))).cols
      = df.cols ++ ["geolocalizacion"] := by
    rw [hdf1]
  have hnotr : ∀ c ∈ df.cols, c ∉ ["location", "latitude", "longitude"] := by
    intro c hc hmem
    simp only [List.mem_cons, List.not_mem_nil, or_false] at hmem
    rcases hmem with h1 | h1 | h1 <;> subst h1
    · exact hl hc
    · exact hla hc
    · exact hlo hc
  have hgv : ∀ r ∈ df.rows,
      getVal (setCol df "geolocalizacion" (df.rows.map (keyOf df.cols))).cols
        (r ++ [keyOf df.cols r]) "geolocalizacion" = keyOf df.cols r := by
    intro r hr
    rw [hcols1, getVal_eq_getD (colIdx_append_self hgnone), ← hwf r hr]
    exact getD_append_cons r _ []
  unfold geocode_df
  rw [if_pos h]
  simp only
  refine ⟨?_, ?_, by rw [hcolname]⟩
  · -- column names of the merged frame
    show (setCol df "geolocalizacion" (df.rows.map (keyOf df.cols))).cols.map
        (fun c => if c ∈ (locTable geo _).cols then c ++ "_x" else c)
      ++ (locTable geo _).cols.map
        (fun c => if c ∈ (setCol df "geolocalizacion" (df.rows.map (keyOf df.cols))).cols
          then c ++ "_y" else c) = _
    rw [hcols1]
    show (df.cols ++ ["geolocalizacion"]).map
        (fun c => if c ∈ ["location", "latitude", "longitude"] then c ++ "_x" else c)
      ++ ["location", "latitude", "longitude"].map
        (fun c => if c ∈ df.cols ++ ["geolocalizacion"] then c ++ "_y" else c) = _
    have hxs : (df.cols ++ ["geolocalizacion"]).map
        (fun c => if c ∈ ["location", "latitude", "longitude"] then c ++ "_x" else c)
        = df.cols ++ ["geolocalizacion"] := by
      apply map_rename_id
      intro c hc
      rcases List.mem_append.mp hc with hc | hc
      · exact hnotr c hc
      · simp only [List.mem_singleton] at hc
        subst hc
        decide
    have hys : ∀ c ∈ (["location", "latitude", "longitude"] : List String),
        c ∉ df.cols ++ ["geolocalizacion"] := by
      intro c hc hmem
      rcases List.mem_append.mp hmem with hm | hm
      · exact hnotr c hm hc
      · simp only [List.mem_singleton] at hm
        subst hm
        simp at hc
    rw [hxs, map_rename_id hys, List.append_assoc]
    rfl
  · -- rows of the merged frame
    rw [leftMerge_rows_locTable _ geo _ (nodup_dedupFS _) ?hmem]
    case hmem =>
      intro row hrow
      rw [mem_dedupFS]
      exact getVal_mem_colByName
        (setCol df "geolocalizacion" (df.rows.map (keyOf df.cols)))
        "geolocalizacion" hrow
    rw [hrows1, List.map_map]
    apply List.map_congr_left
    intro r hr
    simp only [Function.comp]
    rw [hgv r hr, List.append_assoc]
    rfl

theorem mem_colByName_dedup (df1 : DF) (c : String) :
    ∀ row ∈ df1.rows, getVal df1.cols row c ∈ dedupFS (colByName df1 c) := by
  intro row hrow
  rw [mem_dedupFS]
  exact getVal_mem_colByName df1 c hrow

theorem geocode_rows_generic (geo : Value → Option (ℚ × ℚ)) (df : DF)
    (h : hasCols df) (hwf : df.WF) :
    (geocode_df geo df).out.rows
      = List.zipWith (fun r k => r ++ [k, latVal geo k, lonVal geo k])
          (setCol df "geolocalizacion" (df.rows.map (keyOf df.cols))).rows
          (df.rows.map (keyOf df.cols)) := by
  unfold geocode_df
  rw [if_pos h]
  simp only
  rw [leftMerge_rows_locTable _ geo _ (nodup_dedupFS _)
    (mem_colByName_dedup _ "geolocalizacion")]
  exact map_ext_to_zipWith geo _ _ _
    (colByName_setCol df "geolocalizacion" _ hwf (List.length_map _ _))

theorem geocode_out_wf (geo : Value → Option (ℚ × ℚ)) (df : DF)
    (h : hasCols df) (hwf : df.WF)
    (hg : "geolocalizacion" ∉ df.cols) (hl : "location" ∉ df.cols)
    (hla : "latitude" ∉ df.cols) (hlo : "longitude" ∉ df.cols) :
    (geocode_df geo df).out.WF := by
  obtain ⟨hc1, hr1, _⟩ := geocode_char geo df h hwf hg hl hla hlo
  intro r hr
  rw [hr1] at hr
  rw [hc1]
  obtain ⟨x, hx, hxr⟩ := List.mem_map.mp hr
  subst hxr
  simp [hwf x hx]

theorem keyOf_append (cols tail : List String) (x ext : List Value)
    (hm : "municipio" ∈ cols) (hd : "departamento" ∈ cols)
    (hx : x.length = cols.length) :
    keyOf (cols ++ tail) (x ++ ext) = keyOf cols x := by
  obtain ⟨jm, hjm⟩ := colIdx_isSome_of_mem hm
  obtain ⟨jd, hjd⟩ := colIdx_isSome_of_mem hd
  unfold keyOf
  rw [getVal_append cols tail x ext _ hjm (by rw [hx]; exact colIdx_lt hjm),
    getVal_append cols tail x ext _ hjd (by rw [hx]; exact colIdx_lt hjd)]

theorem geocode_df_pos (geo : Value → Option (ℚ × ℚ)) (df : DF)
    (h : hasCols df) :
    geocode_df geo df
      = { out := leftMerge (setCol df "geolocalizacion" (df.rows.map (keyOf df.cols)))
            (locTable geo (dedupFS (colByName
              (setCol df "geolocalizacion" (df.rows.map (keyOf df.cols)))
              "geolocalizacion")))
            "geolocalizacion" "location",
          calls := dedupFS (colByName
            (setCol df "geolocalizacion" (df.rows.map (keyOf df.cols)))
            "geolocalizacion"),
          msgs := [] } := by
  unfold geocode_df
  rw [if_pos h]

theorem geocode_char2 (geo : Value → Option (ℚ × ℚ)) (df : DF)
    (h : hasCols df) (hwf : df.WF)
    (hg : "geolocalizacion" ∉ df.cols) (hl : "location" ∉ df.cols)
    (hla : "latitude" ∉ df.cols) (hlo : "longitude" ∉ df.cols) :
    (geocode_df geo (geocode_df geo df).out).calls = (geocode_df geo df).calls
    ∧ (geocode_df geo (geocode_df geo df).out).out.cols
        = df.cols ++ ["geolocalizacion", "location_x", "latitude_x",
            "longitude_x", "location_y", "latitude_y", "longitude_y"]
    ∧ (geocode_df geo (geocode_df geo df).out).out.rows
        = df.rows.map (fun r =>
            r ++ [keyOf df.cols r, keyOf df.cols r,
              latVal geo (keyOf df.cols r), lonVal geo (keyOf df.cols r),
              keyOf df.cols r, latVal geo (keyOf df.cols r),
              lonVal geo (keyOf df.cols r)]) := by
  obtain ⟨hc1, hr1, hcall1⟩ := geocode_char geo df h hwf hg hl hla hlo
  have hwf1 : (geocode_df geo df).out.WF :=
    geocode_out_wf geo df h hwf hg hl hla hlo
  have h1 : hasCols (geocode_df geo df).out := by
    rw [hasCols, hc1]
    exact ⟨List.mem_append_left _ h.1, List.mem_append_left _ h.2⟩
  -- the second key column equals the first
  have hkeys2 : (geocode_df geo df).out.rows.map (keyOf (geocode_df geo df).out.cols)
      = df.rows.map (keyOf df.cols) := by
    rw [hr1, List.map_map]
    apply List.map_congr_left
    intro x hx
    simp only [Function.comp]
    rw [hc1]
    exact keyOf_append df.cols _ x _ h.1 h.2 (hwf x hx)
  -- the key column already exists, at position df.cols.length
  have hidx2 : colIdx (geocode_df geo df).out.cols "geolocalizacion"
      = some df.cols.length := by
    rw [hc1, colIdx_append_right hg]
    have : colIdx ["geolocalizacion", "location", "latitude", "longitude"]
        "geolocalizacion" = some 0 := by decide
    rw [this, Option.map_some']
    congr 1
    exact Nat.zero_add _
  have hlen2 : (df.rows.map (keyOf df.cols)).length
      = (geocode_df geo df).out.rows.length := by
    rw [hr1]
    simp
  -- re-assigning the key column leaves the rows unchanged
  have hset2 : (setCol (geocode_df geo df).out "geolocalizacion"
      (df.rows.map (keyOf df.cols))).rows = (geocode_df geo df).out.rows := by
    unfold setCol
    rw [hidx2]
    simp only
    rw [hr1, zipWith_map_map]
    apply List.map_congr_left
    intro x hx
    have hxl : x.length = df.cols.length := hwf x hx
    show (x ++ keyOf df.cols x :: [keyOf df.cols x,
      latVal geo (keyOf df.cols x), lonVal geo (keyOf df.cols x)]).set
        df.cols.length (keyOf df.cols x) = _
    rw [← hxl, set_append_cons_self]
  have hsetcols2 : (setCol (geocode_df geo df).out "geolocalizacion"
      (df.rows.map (keyOf df.cols))).cols = (geocode_df geo df).out.cols := by
    unfold setCol
    rw [hidx2]
  have hcolname2 : colByName (setCol (geocode_df geo df).out "geolocalizacion"
      (df.rows.map (keyOf df.cols))) "geolocalizacion"
      = df.rows.map (keyOf df.cols) :=
    colByName_setCol _ _ _ hwf1 hlen2
  have hnotr : ∀ c ∈ df.cols, c ∉ ["location", "latitude", "longitude"] := by
    intro c hc hmem
    simp only [List.mem_cons, List.not_mem_nil, or_false] at hmem
    rcases hmem with h1 | h1 | h1 <;> subst h1
    · exact hl hc
    · exact hla hc
    · exact hlo hc
  -- the per-row key cell of the frame fed to the second merge
  have hgv2 : ∀ x ∈ df.rows,
      getVal (setCol (geocode_df geo df).out "geolocalizacion"
          (df.rows.map (keyOf df.cols))).cols
        (x ++ [keyOf df.cols x, keyOf df.cols x,
          latVal geo (keyOf df.cols x), lonVal geo (keyOf df.cols x)])
        "geolocalizacion" = keyOf df.cols x := by
    intro x hx
    rw [hsetcols2, getVal_eq_getD hidx2, ← hwf x hx]
    exact getD_append_cons x _ _
  rw [geocode_df_pos geo (geocode_df geo df).out h1, hkeys2]
  refine ⟨?_, ?_, ?_⟩
  · -- same lookups as the first run
    show dedupFS (colByName _ "geolocalizacion") = _
    rw [hcolname2, hcall1]
  · -- column names after the second merge
    show (setCol (geocode_df geo df).out "geolocalizacion"
        (df.rows.map (keyOf df.cols))).cols.map
          (fun c => if c ∈ ["location", "latitude", "longitude"] then c ++ "_x" else c)
      ++ ["location", "latitude", "longitude"].map
          (fun c => if c ∈ (setCol (geocode_df geo df).out "geolocalizacion"
            (df.rows.map (keyOf df.cols))).cols then c ++ "_y" else c) = _
    rw [hsetcols2, hc1]
    have hxs : (df.cols ++ ["geolocalizacion", "location", "latitude", "longitude"]).map
        (fun c => if c ∈ ["location", "latitude", "longitude"] then c ++ "_x" else c)
        = df.cols ++ ["geolocalizacion", "location_x", "latitude_x", "longitude_x"] := by
      rw [List.map_append, map_rename_id hnotr]
      congr 1
    rw [hxs]
    have hmemtail : ∀ c ∈ (["location", "latitude", "longitude"] : List String),
        c ∈ df.cols ++ ["geolocalizacion", "location", "latitude", "longitude"] := by
      intro c hc
      apply List.mem_append_right
      simp only [List.mem_cons, List.not_mem_nil, or_false] at hc ⊢
      tauto
    have hys : (["location", "latitude", "longitude"] : List String).map
        (fun c => if c ∈ df.cols ++ ["geolocalizacion", "location", "latitude", "longitude"]
          then c ++ "_y" else c)
        = ["location_y", "latitude_y", "longitude_y"] := by
      simp only [List.map_cons, List.map_nil]
      rw [if_pos (hmemtail "location" (by decide)),
        if_pos (hmemtail "latitude" (by decide)),
        if_pos (hmemtail "longitude" (by decide))]
      rfl
    rw [hys, List.append_assoc]
    rfl
  · -- rows after the second merge
    rw [leftMerge_rows_locTable _ geo _ (nodup_dedupFS _)
      (mem_colByName_dedup _ "geolocalizacion")]
    rw [hset2, hr1, List.map_map]
    apply List.map_congr_left
    intro x hx
    simp only [Function.comp]
    rw [hgv2 x hx, List.append_assoc]
    rfl

/-! ## Rounding and display facts -/

theorem rhe_nonneg {x : ℚ} (hx : 0 ≤ x) : 0 ≤ rhe x := by
  unfold rhe
  have hf : (0:ℤ) ≤ ⌊x⌋ := Int.floor_nonneg.mpr hx
  split_ifs <;> omega

theorem rhe_le {x : ℚ} {B : ℤ} (hx : x ≤ (B:ℚ)) : rhe x ≤ B := by
  unfold rhe
  have hfB : ⌊x⌋ ≤ B := by
    have := Int.floor_mono hx
    rwa [Int.floor_intCast] at this
  split_ifs with h1 h2 h3
  · exact hfB
  · have hne : ⌊x⌋ ≠ B := by
      intro hEq
      apply h1
      have hxB : x - (⌊x⌋ : ℚ) ≤ 0 := by
        rw [hEq]
        exact sub_nonpos.mpr hx
      linarith
    omega
  · exact hfB
  · have hne : ⌊x⌋ ≠ B := by
      intro hEq
      apply h1
      have hxB : x - (⌊x⌋ : ℚ) ≤ 0 := by
        rw [hEq]
        exact sub_nonpos.mpr hx
      linarith
    omega

theorem round2_bounds {x : ℚ} (h0 : 0 ≤ x) (h1 : x ≤ 100) :
    0 ≤ round2 x ∧ round2 x ≤ 100 := by
  unfold round2
  constructor
  · apply div_nonneg _ (by norm_num)
    exact_mod_cast rhe_nonneg (by positivity)
  · rw [div_le_iff₀ (by norm_num : (0:ℚ) < 100)]
    have hb : rhe (x * 100) ≤ (10000 : ℤ) := rhe_le (by push_cast; linarith)
    calc ((rhe (x * 100) : ℤ) : ℚ) ≤ ((10000 : ℤ) : ℚ) := by exact_mod_cast hb
    _ = 100 * 100 := by norm_num

theorem rhe_zero : rhe 0 = 0 := by
  unfold rhe
  norm_num [Int.floor_zero]

theorem round2_zero : round2 0 = 0 := by
  unfold round2
  rw [zero_mul, rhe_zero]
  norm_num

theorem pyFloatStr_zero : pyFloatStr 0 = "0.0" := by
  have h1 : ((0:ℚ) * 100).num.toNat = 0 := by norm_num
  unfold pyFloatStr
  rw [h1]
  norm_num
  decide

theorem missingDisplay_of_no_nulls {col : List Value} (hne : col.length ≠ 0)
    (hz : nullCount col = 0) : missingDisplay col = "0.0%" := by
  have hpct : missingPctCol col = some 0 := by
    unfold missingPctCol
    rw [if_neg hne, hz]
    norm_num [round2_zero]
  unfold missingDisplay
  rw [hpct]
  show pyFloatStr 0 ++ "%" = "0.0%"
  rw [pyFloatStr_zero]
  rfl

theorem zeroDisplay_of_no_zeros {col : List Value} (hne : col.length ≠ 0)
    (hz : zeroCount col = 0) : zeroDisplay col = "0.0%" := by
  have hpct : zeroPctCol col = some 0 := by
    unfold zeroPctCol
    rw [if_neg hne, hz]
    norm_num [round2_zero]
  unfold zeroDisplay
  rw [hpct]
  show pyFloatStr 0 ++ "%" = "0.0%"
  rw [pyFloatStr_zero]
  rfl

/-! ## Sorting facts -/

theorem setCol_rows_some (df : DF) (c : String) (vals : List Value) {i0 : ℕ}
    (hc : colIdx df.cols c = some i0) :
    (setCol df c vals).rows
      = List.zipWith (fun r v => r.set i0 v) df.rows vals := by
  unfold setCol
  rw [hc]

theorem setCol_rows_none (df : DF) (c : String) (vals : List Value)
    (hc : colIdx df.cols c = none) :
    (setCol df c vals).rows
      = List.zipWith (fun r v => r ++ [v]) df.rows vals := by
  unfold setCol
  rw [hc]

theorem textCell_not_num {v : Value} (h : textCell v = true) :
    isNumV v = false := by
  cases v with
  | vStr s => rfl
  | vNum q => exact absurd h (by simp [textCell])
  | vNull => rfl

theorem keyBuildRaises_eq_false {df : DF} (h : textTypedKeyCols df) :
    keyBuildRaises df = false := by
  unfold keyBuildRaises
  rw [Bool.or_eq_false_iff, Bool.or_eq_false_iff]
  refine ⟨⟨?_, ?_⟩, ?_⟩
  · rw [List.any_eq_false]
    intro r hr hcontra
    rw [textCell_not_num (h.1 r hr).1] at hcontra
    simp at hcontra
  · by_cases hne : df.rows = []
    · rw [hne]
      rfl
    · obtain ⟨r0, hr0, hstr⟩ := h.2 hne
      have hany : df.rows.any
          (fun r => isStrV (getVal df.cols r "municipio")) = true :=
        List.any_eq_true.mpr ⟨r0, hr0, hstr⟩
      rw [hany]
      simp
  · rw [List.any_eq_false]
    intro r hr hcontra
    rw [textCell_not_num (h.1 r hr).2, Bool.and_false] at hcontra
    simp at hcontra

/-- C1 counterexample: a table with both required columns but a numeric
'municipio' cell lies inside the claim's domain, yet line 134 raises
TypeError (int64 column + string), so `geocode_dataframe` errors out
instead of returning a row-preserving table. -/
theorem geo_c1_counter :
    hasCols ⟨["municipio", "departamento"], [[vNum 5, vStr "X"]]⟩
    ∧ DF.WF ⟨["municipio", "departamento"], [[vNum 5, vStr "X"]]⟩
    ∧ keyBuildRaises ⟨["municipio", "departamento"], [[vNum 5, vStr "X"]]⟩
        = true :=
  ⟨by decide, by decide, by decide⟩

/-- C1 (amended): for every input table with both 'municipio' and
'departamento' columns whose key columns are text-typed (text-or-null cells,
with some string when nonempty — otherwise line 134 raises TypeError and no
table is returned), the key construction raises nothing and the frame
returned by `geocode_dataframe` has exactly as many rows as the input, in
the original order: the i-th output row is the i-th input row (with only the
key column written) extended by the key and its coordinates; every cell of
the input other than an overwritten 'geolocalizacion' cell is preserved in
place; and a row whose Location Key lookup failed carries null latitude and
longitude, with no row lost or duplicated. -/
theorem geo_c1 (geo : Value → Option (ℚ × ℚ)) (df : DF)
    (h : hasCols df) (hwf : df.WF) (htxt : textTypedKeyCols df) :
    keyBuildRaises df = false
    ∧ (geocode_df geo df).out.rows.length = df.rows.length
    ∧ (∀ i, i < df.rows.length →
        (geocode_df geo df).out.rows.getD i []
          = (setCol df "geolocalizacion" (df.rows.map (keyOf df.cols))).rows.getD i []
            ++ [keyOf df.cols (df.rows.getD i []),
                latVal geo (keyOf df.cols (df.rows.getD i [])),
                lonVal geo (keyOf df.cols (df.rows.getD i []))])
    ∧ (∀ i j, i < df.rows.length → j < df.cols.length →
        colIdx df.cols "geolocalizacion" ≠ some j →
        ((geocode_df geo df).out.rows.getD i []).getD j vNull
          = (df.rows.getD i []).getD j vNull)
    ∧ (∀ k, geo k = none → latVal geo k = vNull ∧ lonVal geo k = vNull) := by
  have hklen : (df.rows.map (keyOf df.cols)).length = df.rows.length :=
    List.length_map _ _
  have hsl : (setCol df "geolocalizacion" (df.rows.map (keyOf df.cols))).rows.length
      = df.rows.length := setCol_rows_length df _ _ hklen
  have hrows := geocode_rows_generic geo df h hwf
  have hzlen : (geocode_df geo df).out.rows.length = df.rows.length := by
    rw [hrows, List.length_zipWith, hsl, hklen]
    exact min_self _
  refine ⟨keyBuildRaises_eq_false htxt, hzlen, ?_, ?_, ?_⟩
  · intro i hi
    rw [hrows, getD_zipWith_rows _ _ _ i (by rw [hsl]; exact hi)
      (by rw [hklen]; exact hi)]
    rw [getD_map_vals df.rows (keyOf df.cols) i hi]
  · intro i j hi hj hne
    rw [hrows, getD_zipWith_rows _ _ _ i (by rw [hsl]; exact hi)
      (by rw [hklen]; exact hi)]
    have hrl : (df.rows.getD i []).length = df.cols.length :=
      hwf _ (getD_rows_mem df.rows i hi)
    cases hc : colIdx df.cols "geolocalizacion" with
    | some i0 =>
      have hne' : i0 ≠ j := fun hEq => hne (hEq ▸ hc)
      rw [setCol_rows_some df _ _ hc,
        getD_zipWith_rows _ _ _ i hi (by rw [hklen]; exact hi),
        getD_append_lt _ _ j (by rw [List.length_set, hrl]; exact hj),
        getD_set_ne _ i0 j _ hne']
    | none =>
      rw [setCol_rows_none df _ _ hc,
        getD_zipWith_rows _ _ _ i hi (by rw [hklen]; exact hi),
        getD_append_lt _ _ j (by simp only [List.length_append,
          List.length_singleton]; omega),
        getD_append_lt _ _ j (by rw [hrl]; exact hj)]
  · intro k hk
    unfold latVal lonVal
    rw [hk]
    exact ⟨rfl, rfl⟩

/-- Witness for the amended C1 at a concrete table and geocoder. -/
theorem geo_c1_witness :
    (geocode_df geo0 dfW).out.rows.length = dfW.rows.length :=
  (geo_c1 geo0 dfW (by decide) (by decide) (by decide)).2.1

/-- C2 counterexample: a table with a string 'municipio' and a numeric
'departamento' cell lies inside the claim's domain, yet the second `+` of
line 134 raises TypeError (string cell + numeric cell), so the code errors
out before performing any lookup. -/
theorem geo_c2_counter :
    hasCols ⟨["municipio", "departamento"], [[vStr "Bogota", vNum 7]]⟩
    ∧ DF.WF ⟨["municipio", "departamento"], [[vStr "Bogota", vNum 7]]⟩
    ∧ keyBuildRaises ⟨["municipio", "departamento"], [[vStr "Bogota", vNum 7]]⟩
        = true :=
  ⟨by decide, by decide, by decide⟩

/-- C2 (amended): for every input table with both required columns whose
key columns are text-typed (text-or-null cells, with some string when
nonempty — otherwise line 134 raises TypeError before any lookup), the key
construction raises nothing; the Location Key of a row with string-valued
'municipio' and 'departamento' cells is the municipality, ", ", the
department, and ", Colombia"; and the external lookups are exactly the
first-seen deduplication of the per-row keys: one call per distinct key
(count equal to the number of distinct keys, not the row count), issued in
first-occurrence order (the call list is a duplicate-free sublist of the
row-key sequence covering every key). -/
theorem geo_c2 (geo : Value → Option (ℚ × ℚ)) (df : DF)
    (h : hasCols df) (hwf : df.WF) (htxt : textTypedKeyCols df) :
    keyBuildRaises df = false
    ∧ (geocode_df geo df).calls = dedupFS (df.rows.map (keyOf df.cols))
    ∧ (geocode_df geo df).calls.Nodup
    ∧ List.Sublist (geocode_df geo df).calls (df.rows.map (keyOf df.cols))
    ∧ (∀ k, k ∈ (geocode_df geo df).calls ↔ k ∈ df.rows.map (keyOf df.cols))
    ∧ (geocode_df geo df).calls.length
        = (df.rows.map (keyOf df.cols)).toFinset.card
    ∧ (∀ row m d, getVal df.cols row "municipio" = vStr m →
        getVal df.cols row "departamento" = vStr d →
        keyOf df.cols row = vStr (m ++ ", " ++ d ++ ", Colombia")) := by
  have hcalls : (geocode_df geo df).calls
      = dedupFS (df.rows.map (keyOf df.cols)) := by
    rw [geocode_df_pos geo df h]
    show dedupFS (colByName _ "geolocalizacion") = _
    rw [colByName_setCol df _ _ hwf (List.length_map _ _)]
  refine ⟨keyBuildRaises_eq_false htxt, hcalls, ?_, ?_, ?_, ?_, ?_⟩
  · rw [hcalls]
    exact nodup_dedupFS _
  · rw [hcalls]
    exact sublist_dedupFS _
  · intro k
    rw [hcalls]
    exact mem_dedupFS k _
  · rw [hcalls]
    exact length_dedupFS_eq_card _
  · intro row m d hm hd
    unfold keyOf
    rw [hm, hd]
    rfl

/-- Witness for the amended C2: on a table with a repeated location, the
number of lookups is the number of distinct keys. -/
theorem geo_c2_witness :
    (geocode_df geo0 dfW).calls.length
      = (dfW.rows.map (keyOf dfW.cols)).toFinset.card :=
  (geo_c2 geo0 dfW (by decide) (by decide) (by decide)).2.2.2.2.2.1

/-- C3 counterexample: in a column holding both a string and a number
(pandas dtype `object`), `fix_string_case` does not pass the non-text value
through: `.str.lower()` turns the number 5 into NaN, so the cell comes back
null instead of 5. -/
theorem fix_c3_counter :
    fix_string_case ⟨["c"], [[vStr "x"], [vNum 5]]⟩
      = ⟨["c"], [[vStr "X"], [vNull]]⟩
    ∧ (vNull : Value) ≠ vNum 5 := by
  constructor
  · decide
  · decide

/-- C3 (amended): `fix_string_case` keeps the column set and the shape of
every row; every text cell becomes `capitalize(lower(unidecode(value)))`,
applied independently per cell; every null passes through unchanged; a
numeric cell passes through unchanged when its column holds no text, but is
replaced by null when its column is text-typed (holds some string), because
`.str.lower()` maps non-strings to NaN. -/
theorem fix_c3_amended (df : DF) :
    (fix_string_case df).cols = df.cols
    ∧ (fix_string_case df).rows.length = df.rows.length
    ∧ (∀ i, i < df.rows.length →
        ((fix_string_case df).rows.getD i []).length
          = (df.rows.getD i []).length)
    ∧ (∀ i j, i < df.rows.length → j < (df.rows.getD i []).length →
        (∀ s, (df.rows.getD i []).getD j vNull = vStr s →
          ((fix_string_case df).rows.getD i []).getD j vNull
            = vStr (pyCapitalize (pyLower (unidecodeStr s))))
        ∧ ((df.rows.getD i []).getD j vNull = vNull →
            ((fix_string_case df).rows.getD i []).getD j vNull = vNull)
        ∧ (∀ q, (df.rows.getD i []).getD j vNull = vNum q →
            ((fix_string_case df).rows.getD i []).getD j vNull
              = if objFlag df j then vNull else vNum q)) := by
  have hrows : ∀ i, i < df.rows.length →
      (fix_string_case df).rows.getD i []
        = mapWithIdx (fun j v => if objFlag df j then fixColVal v else v) 0
            (df.rows.getD i []) :=
    fun i hi => getD_map_rows df.rows _ i hi
  refine ⟨rfl, by simp [fix_string_case], ?_, ?_⟩
  · intro i hi
    rw [hrows i hi, length_mapWithIdx]
  · intro i j hi hj
    have hcell : ((fix_string_case df).rows.getD i []).getD j vNull
        = (fun j v => if objFlag df j then fixColVal v else v) (0 + j)
            ((df.rows.getD i []).getD j vNull) := by
      rw [hrows i hi]
      exact getD_mapWithIdx _ _ 0 j hj
    simp only [Nat.zero_add] at hcell
    refine ⟨?_, ?_, ?_⟩
    · intro s hs
      have hflag : objFlag df j = true := by
        unfold objFlag
        rw [List.any_eq_true]
        exact ⟨df.rows.getD i [], getD_rows_mem df.rows i hi, by rw [hs]; rfl⟩
      rw [hcell, hs, if_pos hflag]
      rfl
    · intro hnull
      rw [hcell, hnull]
      cases hb : objFlag df j <;>
        simp [hb, fixColVal, remove_accents, strLowerV, strCapitalizeV]
    · intro q hq
      rw [hcell, hq]
      cases hb : objFlag df j <;>
        simp [hb, fixColVal, remove_accents, strLowerV, strCapitalizeV]

/-- Witness for the amended C3 at a concrete accented value. -/
theorem fix_c3_witness :
    ((fix_string_case ⟨["c"], [[vStr "ÁRBOL"]]⟩).rows.getD 0 []).getD 0 vNull
      = vStr (pyCapitalize (pyLower (unidecodeStr "ÁRBOL"))) :=
  ((fix_c3_amended ⟨["c"], [[vStr "ÁRBOL"]]⟩).2.2.2 0 0 (by decide)
    (by decide)).1 "ÁRBOL" (by decide)

/-- C4: on a table missing 'municipio' or 'departamento', the enricher is a
no-op: it returns its input unchanged, performs no lookup, and prints a
descriptive notice instead of raising. -/
theorem geo_c4 (geo : Value → Option (ℚ × ℚ)) (df : DF) (h : ¬hasCols df) :
    (geocode_df geo df).out = df
    ∧ (geocode_df geo df).calls = []
    ∧ (geocode_df geo df).msgs
        = ["DataFrame does not contain required columns: municipio and departamento"] := by
  unfold geocode_df
  rw [if_neg h]
  exact ⟨rfl, rfl, rfl⟩

/-- Witness for C4 at a table with neither required column. -/
theorem geo_c4_witness :
    (geocode_df geo0 ⟨["a"], [[vStr "z"]]⟩).out = ⟨["a"], [[vStr "z"]]⟩ :=
  (geo_c4 geo0 ⟨["a"], [[vStr "z"]]⟩ (by decide)).1

/-- C6: re-running `geocode_dataframe` on its own output (whose key columns
are unchanged) succeeds — the required columns are still present and no
error notice is printed — performs exactly the same external lookups, and
attaches the same latitude/longitude values as the first run (in the second
output they live in the pandas-suffixed columns 'latitude_y'/'longitude_y',
since the merge finds the first run's coordinate columns already present). -/
theorem geo_c6 (geo : Value → Option (ℚ × ℚ)) (df : DF)
    (h : hasCols df) (hwf : df.WF)
    (hg : "geolocalizacion" ∉ df.cols) (hl : "location" ∉ df.cols)
    (hla : "latitude" ∉ df.cols) (hlo : "longitude" ∉ df.cols)
    (hlay : "latitude_y" ∉ df.cols) (hloy : "longitude_y" ∉ df.cols) :
    hasCols (geocode_df geo df).out
    ∧ (geocode_df geo (geocode_df geo df).out).msgs = []
    ∧ (geocode_df geo (geocode_df geo df).out).calls = (geocode_df geo df).calls
    ∧ colByName (geocode_df geo (geocode_df geo df).out).out "latitude_y"
        = colByName (geocode_df geo df).out "latitude"
    ∧ colByName (geocode_df geo (geocode_df geo df).out).out "longitude_y"
        = colByName (geocode_df geo df).out "longitude" := by
  obtain ⟨hc1, hr1, _⟩ := geocode_char geo df h hwf hg hl hla hlo
  obtain ⟨hcall2, hc2, hr2⟩ := geocode_char2 geo df h hwf hg hl hla hlo
  have h1 : hasCols (geocode_df geo df).out := by
    rw [hasCols, hc1]
    exact ⟨List.mem_append_left _ h.1, List.mem_append_left _ h.2⟩
  have hLy : colByName (geocode_df geo (geocode_df geo df).out).out "latitude_y"
      = df.rows.map (fun x => latVal geo (keyOf df.cols x)) := by
    have hidx : colIdx (geocode_df geo (geocode_df geo df).out).out.cols
        "latitude_y" = some (5 + df.cols.length) := by
      rw [hc2, colIdx_append_right hlay]
      have hlit : colIdx ["geolocalizacion", "location_x", "latitude_x",
          "longitude_x", "location_y", "latitude_y", "longitude_y"]
          "latitude_y" = some 5 := by decide
      rw [hlit, Option.map_some']
    unfold colByName
    rw [hr2, List.map_map]
    apply List.map_congr_left
    intro x hx
    simp only [Function.comp]
    rw [getVal_eq_getD hidx,
      getD_append_idx _ _ _ (by rw [hwf x hx]; omega)]
    have harith : 5 + df.cols.length - x.length = 5 := by rw [hwf x hx]; omega
    rw [harith]
    rfl
  have hLoy : colByName (geocode_df geo (geocode_df geo df).out).out "longitude_y"
      = df.rows.map (fun x => lonVal geo (keyOf df.cols x)) := by
    have hidx : colIdx (geocode_df geo (geocode_df geo df).out).out.cols
        "longitude_y" = some (6 + df.cols.length) := by
      rw [hc2, colIdx_append_right hloy]
      have hlit : colIdx ["geolocalizacion", "location_x", "latitude_x",
          "longitude_x", "location_y", "latitude_y", "longitude_y"]
          "longitude_y" = some 6 := by decide
      rw [hlit, Option.map_some']
    unfold colByName
    rw [hr2, List.map_map]
    apply List.map_congr_left
    intro x hx
    simp only [Function.comp]
    rw [getVal_eq_getD hidx,
      getD_append_idx _ _ _ (by rw [hwf x hx]; omega)]
    have harith : 6 + df.cols.length - x.length = 6 := by rw [hwf x hx]; omega
    rw [harith]
    rfl
  have hL1 : colByName (geocode_df geo df).out "latitude"
      = df.rows.map (fun x => latVal geo (keyOf df.cols x)) := by
    have hidx : colIdx (geocode_df geo df).out.cols "latitude"
        = some (2 + df.cols.length) := by
      rw [hc1, colIdx_append_right hla]
      have hlit : colIdx ["geolocalizacion", "location", "latitude",
          "longitude"] "latitude" = some 2 := by decide
      rw [hlit, Option.map_some']
    unfold colByName
    rw [hr1, List.map_map]
    apply List.map_congr_left
    intro x hx
    simp only [Function.comp]
    rw [getVal_eq_getD hidx,
      getD_append_idx _ _ _ (by rw [hwf x hx]; omega)]
    have harith : 2 + df.cols.length - x.length = 2 := by rw [hwf x hx]; omega
    rw [harith]
    rfl
  have hLo1 : colByName (geocode_df geo df).out "longitude"
      = df.rows.map (fun x => lonVal geo (keyOf df.cols x)) := by
    have hidx : colIdx (geocode_df geo df).out.cols "longitude"
        = some (3 + df.cols.length) := by
      rw [hc1, colIdx_append_right hlo]
      have hlit : colIdx ["geolocalizacion", "location", "latitude",
          "longitude"] "longitude" = some 3 := by decide
      rw [hlit, Option.map_some']
    unfold colByName
    rw [hr1, List.map_map]
    apply List.map_congr_left
    intro x hx
    simp only [Function.comp]
    rw [getVal_eq_getD hidx,
      getD_append_idx _ _ _ (by rw [hwf x hx]; omega)]
    have harith : 3 + df.cols.length - x.length = 3 := by rw [hwf x hx]; omega
    rw [harith]
    rfl
  refine ⟨h1, ?_, hcall2, ?_, ?_⟩
  · rw [geocode_df_pos geo (geocode_df geo df).out h1]
  · rw [hLy, hL1]
  · rw [hLoy, hLo1]

/-- Witness for C6: the repeated run performs the same lookups. -/
theorem geo_c6_witness :
    (geocode_df geo0 (geocode_df geo0 dfW).out).calls
      = (geocode_df geo0 dfW).calls :=
  (geo_c6 geo0 dfW (by decide) (by decide) (by decide) (by decide)
    (by decide) (by decide) (by decide) (by decide)).2.2.1

/-- C7 (documenting the divergence): the Normalizer does leave the managed
frame normalized, but after `geocode_dataframe()` on the managed frame the
DataManager's own table has gained only the 'geolocalizacion' key column —
'location', 'latitude' and 'longitude' exist only in the returned frame,
because the `dataframe is self.dataframe` test on line 162 runs after
`dataframe` was rebound to the merge result and so never fires, contrary to
the comment on line 163. -/
theorem c7_managed_bug :
    (fix_managed ⟨⟨["municipio", "departamento"],
        [[vStr "Bogota", vStr "Cundinamarca"]]⟩⟩).1.dataframe
      = fix_string_case ⟨["municipio", "departamento"],
          [[vStr "Bogota", vStr "Cundinamarca"]]⟩
    ∧ (geocode_managed geo0 ⟨⟨["municipio", "departamento"],
        [[vStr "Bogota", vStr "Cundinamarca"]]⟩⟩).1.dataframe.cols
      = ["municipio", "departamento", "geolocalizacion"]
    ∧ "latitude" ∉ (geocode_managed geo0 ⟨⟨["municipio", "departamento"],
        [[vStr "Bogota", vStr "Cundinamarca"]]⟩⟩).1.dataframe.cols
    ∧ "latitude" ∈ (geocode_managed geo0 ⟨⟨["municipio", "departamento"],
        [[vStr "Bogota", vStr "Cundinamarca"]]⟩⟩).2.out.cols
    ∧ (geocode_managed geo0 ⟨⟨["municipio", "departamento"],
        [[vStr "Bogota", vStr "Cundinamarca"]]⟩⟩).1.dataframe
      ≠ (geocode_managed geo0 ⟨⟨["municipio", "departamento"],
        [[vStr "Bogota", vStr "Cundinamarca"]]⟩⟩).2.out :=
  ⟨rfl, by decide, by decide, by decide, by decide⟩

/-- C8 counterexample: on a table with a column but no rows, the mean that
`missing_values` takes is the mean of an empty series — NaN — so the column
displays "nan%", which is not a percentage in [0, 100] and not "0.0%",
although the column holds zero nulls. -/
theorem metrics_c8_counter :
    missingPctCol (colAt ⟨["a"], ([] : List (List Value))⟩ 0) = none
    ∧ nullCount (colAt ⟨["a"], ([] : List (List Value))⟩ 0) = 0
    ∧ missing_values ⟨["a"], ([] : List (List Value))⟩ = [("a", "nan%")]
    ∧ "nan%" ≠ "0.0%" :=
  ⟨by decide, by decide, by decide, by decide⟩

/-- C8 (amended): for every table with at least one row, the per-column
missing-value ratio is `round2(nullCount/rows * 100)`, a percentage in
[0, 100] rounded to two decimals, and a column with zero nulls displays
exactly "0.0%". -/
theorem metrics_c8_amended (df : DF) (hne : df.rows ≠ []) (j : ℕ)
    (_hj : j < df.cols.length) :
    ∃ q : ℚ, missingPctCol (colAt df j) = some q
      ∧ 0 ≤ q ∧ q ≤ 100
      ∧ q = round2 ((nullCount (colAt df j) : ℚ)
          / ((colAt df j).length : ℚ) * 100)
      ∧ (nullCount (colAt df j) = 0 →
          missingDisplay (colAt df j) = "0.0%") := by
  have hlen : (colAt df j).length = df.rows.length := by simp [colAt]
  have hne' : (colAt df j).length ≠ 0 := by
    rw [hlen]
    intro h0
    exact hne (List.length_eq_zero.mp h0)
  have hlpos : (0:ℚ) < ((colAt df j).length : ℚ) := by
    exact_mod_cast Nat.pos_of_ne_zero hne'
  have hcnt : nullCount (colAt df j) ≤ (colAt df j).length :=
    List.length_filter_le _ _
  have hx0 : 0 ≤ (nullCount (colAt df j) : ℚ)
      / ((colAt df j).length : ℚ) * 100 := by positivity
  have hx1 : (nullCount (colAt df j) : ℚ)
      / ((colAt df j).length : ℚ) * 100 ≤ 100 := by
    have hdiv : (nullCount (colAt df j) : ℚ) / ((colAt df j).length : ℚ) ≤ 1 := by
      rw [div_le_one hlpos]
      exact_mod_cast hcnt
    linarith
  refine ⟨round2 ((nullCount (colAt df j) : ℚ)
      / ((colAt df j).length : ℚ) * 100), ?_, (round2_bounds hx0 hx1).1,
    (round2_bounds hx0 hx1).2, rfl, ?_⟩
  · unfold missingPctCol
    rw [if_neg hne']
  · intro hz
    exact missingDisplay_of_no_nulls hne' hz

/-- Witness for the amended C8 at a one-row table with no nulls. -/
theorem metrics_c8_witness :
    ∃ q : ℚ, missingPctCol (colAt ⟨["a"], [[vStr "z"]]⟩ 0) = some q
      ∧ 0 ≤ q ∧ q ≤ 100
      ∧ q = round2 ((nullCount (colAt ⟨["a"], [[vStr "z"]]⟩ 0) : ℚ)
          / ((colAt ⟨["a"], [[vStr "z"]]⟩ 0).length : ℚ) * 100)
      ∧ (nullCount (colAt ⟨["a"], [[vStr "z"]]⟩ 0) = 0 →
          missingDisplay (colAt ⟨["a"], [[vStr "z"]]⟩ 0) = "0.0%") :=
  metrics_c8_amended ⟨["a"], [[vStr "z"]]⟩ (by decide) 0 (by decide)

/-- C9 counterexample: on a table with a column but no rows — a column that
vacuously holds only text — `zero_values` displays "nan%" (mean of an empty
comparison series), not 0%. -/
theorem metrics_c9_counter :
    zeroPctCol (colAt ⟨["b"], ([] : List (List Value))⟩ 0) = none
    ∧ (∀ v ∈ colAt ⟨["b"], ([] : List (List Value))⟩ 0, ∃ s, v = vStr s)
    ∧ zero_values ⟨["b"], ([] : List (List Value))⟩ = [("b", "nan%")]
    ∧ "nan%" ≠ "0.0%" := by
  refine ⟨by decide, ?_, by decide, by decide⟩
  intro v hv
  simp [colAt] at hv

/-- C9 (amended): for every table with at least one row, the per-column
zero-value ratio is `round2(zeroCount/rows * 100)` — the percentage of
cells comparing equal to 0, over every column including non-numeric ones —
a value in [0, 100] rounded to two decimals; a column holding only text
values yields 0 and displays "0.0%". -/
theorem metrics_c9_amended (df : DF) (hne : df.rows ≠ []) (j : ℕ)
    (_hj : j < df.cols.length) :
    ∃ q : ℚ, zeroPctCol (colAt df j) = some q
      ∧ 0 ≤ q ∧ q ≤ 100
      ∧ q = round2 ((zeroCount (colAt df j) : ℚ)
          / ((colAt df j).length : ℚ) * 100)
      ∧ ((∀ v ∈ colAt df j, ∃ s, v = vStr s) →
          q = 0 ∧ zeroDisplay (colAt df j) = "0.0%") := by
  have hlen : (colAt df j).length = df.rows.length := by simp [colAt]
  have hne' : (colAt df j).length ≠ 0 := by
    rw [hlen]
    intro h0
    exact hne (List.length_eq_zero.mp h0)
  have hlpos : (0:ℚ) < ((colAt df j).length : ℚ) := by
    exact_mod_cast Nat.pos_of_ne_zero hne'
  have hcnt : zeroCount (colAt df j) ≤ (colAt df j).length :=
    List.length_filter_le _ _
  have hx0 : 0 ≤ (zeroCount (colAt df j) : ℚ)
      / ((colAt df j).length : ℚ) * 100 := by positivity
  have hx1 : (zeroCount (colAt df j) : ℚ)
      / ((colAt df j).length : ℚ) * 100 ≤ 100 := by
    have hdiv : (zeroCount (colAt df j) : ℚ) / ((colAt df j).length : ℚ) ≤ 1 := by
      rw [div_le_one hlpos]
      exact_mod_cast hcnt
    linarith
  refine ⟨round2 ((zeroCount (colAt df j) : ℚ)
      / ((colAt df j).length : ℚ) * 100), ?_, (round2_bounds hx0 hx1).1,
    (round2_bounds hx0 hx1).2, rfl, ?_⟩
  · unfold zeroPctCol
    rw [if_neg hne']
  · intro hstr
    have hzc : zeroCount (colAt df j) = 0 := by
      unfold zeroCount
      rw [List.length_eq_zero, List.filter_eq_nil_iff]
      intro v hv
      obtain ⟨s, hs⟩ := hstr v hv
      simp [isZeroV, hs]
    constructor
    · rw [hzc]
      norm_num [round2_zero]
    · exact zeroDisplay_of_no_zeros hne' hzc

/-- Witness for the amended C9 at a one-row text-only table. -/
theorem metrics_c9_witness :
    ∃ q : ℚ, zeroPctCol (colAt ⟨["b"], [[vStr "t"]]⟩ 0) = some q
      ∧ 0 ≤ q ∧ q ≤ 100
      ∧ q = round2 ((zeroCount (colAt ⟨["b"], [[vStr "t"]]⟩ 0) : ℚ)
          / ((colAt ⟨["b"], [[vStr "t"]]⟩ 0).length : ℚ) * 100)
      ∧ ((∀ v ∈ colAt ⟨["b"], [[vStr "t"]]⟩ 0, ∃ s, v = vStr s) →
          q = 0 ∧ zeroDisplay (colAt ⟨["b"], [[vStr "t"]]⟩ 0) = "0.0%") :=
  metrics_c9_amended ⟨["b"], [[vStr "t"]]⟩ (by decide) 0 (by decide)

/-- C10 counterexample: when the input already has a 'geolocalizacion'
column, the assignment overwrites it in place and the output has only three
columns beyond the input, not four. -/
theorem geo_c10_counter :
    (geocode_df geoN ⟨["municipio", "departamento", "geolocalizacion"],
        [[vStr "Bogota", vStr "Cundinamarca", vStr "old"]]⟩).out.cols
      = ["municipio", "departamento", "geolocalizacion",
          "location", "latitude", "longitude"]
    ∧ (geocode_df geoN ⟨["municipio", "departamento", "geolocalizacion"],
        [[vStr "Bogota", vStr "Cundinamarca", vStr "old"]]⟩).out.cols.length
      ≠ (⟨["municipio", "departamento", "geolocalizacion"],
          [[vStr "Bogota", vStr "Cundinamarca", vStr "old"]]⟩ : DF).cols.length + 4 :=
  ⟨by decide, by decide⟩

/-- C10 (amended): for every input with 'municipio' and 'departamento' whose
key columns are text-typed (text-or-null cells, with some string when
nonempty — otherwise line 134 raises TypeError and no table is returned)
and whose columns do not already include any of 'geolocalizacion',
'location', 'latitude', 'longitude', the key construction raises nothing,
the output has exactly those four columns appended beyond the input's, and
on every row the 'location' cell equals the 'geolocalizacion' cell — the
join key is retained twice. -/
theorem geo_c10 (geo : Value → Option (ℚ × ℚ)) (df : DF)
    (h : hasCols df) (hwf : df.WF) (htxt : textTypedKeyCols df)
    (hg : "geolocalizacion" ∉ df.cols) (hl : "location" ∉ df.cols)
    (hla : "latitude" ∉ df.cols) (hlo : "longitude" ∉ df.cols) :
    keyBuildRaises df = false
    ∧ (geocode_df geo df).out.cols
      = df.cols ++ ["geolocalizacion", "location", "latitude", "longitude"]
    ∧ (∀ i, i < df.rows.length →
        getVal (geocode_df geo df).out.cols
            ((geocode_df geo df).out.rows.getD i []) "location"
          = getVal (geocode_df geo df).out.cols
            ((geocode_df geo df).out.rows.getD i []) "geolocalizacion") := by
  obtain ⟨hc1, hr1, _⟩ := geocode_char geo df h hwf hg hl hla hlo
  refine ⟨keyBuildRaises_eq_false htxt, hc1, ?_⟩
  intro i hi
  have hrowi : (geocode_df geo df).out.rows.getD i []
      = (df.rows.getD i [])
        ++ [keyOf df.cols (df.rows.getD i []), keyOf df.cols (df.rows.getD i []),
            latVal geo (keyOf df.cols (df.rows.getD i [])),
            lonVal geo (keyOf df.cols (df.rows.getD i []))] := by
    rw [hr1]
    exact getD_map_rows df.rows _ i hi
  have hx : (df.rows.getD i []).length = df.cols.length :=
    hwf _ (getD_rows_mem df.rows i hi)
  have hidxl : colIdx (geocode_df geo df).out.cols "location"
      = some (1 + df.cols.length) := by
    rw [hc1, colIdx_append_right hl]
    have hlit : colIdx ["geolocalizacion", "location", "latitude", "longitude"]
        "location" = some 1 := by decide
    rw [hlit, Option.map_some']
  have hidxg : colIdx (geocode_df geo df).out.cols "geolocalizacion"
      = some (0 + df.cols.length) := by
    rw [hc1, colIdx_append_right hg]
    have hlit : colIdx ["geolocalizacion", "location", "latitude", "longitude"]
        "geolocalizacion" = some 0 := by decide
    rw [hlit, Option.map_some']
  rw [hrowi, getVal_eq_getD hidxl, getVal_eq_getD hidxg,
    getD_append_idx _ _ _ (by omega),
    getD_append_idx _ _ _ (by omega)]
  have ha1 : 1 + df.cols.length - (df.rows.getD i []).length = 1 := by omega
  have ha0 : 0 + df.cols.length - (df.rows.getD i []).length = 0 := by omega
  rw [ha1, ha0]
  rfl

/-- Witness for the amended C10. -/
theorem geo_c10_witness :
    (geocode_df geo0 dfW).out.cols
      = dfW.cols ++ ["geolocalizacion", "location", "latitude", "longitude"] :=
  (geo_c10 geo0 dfW (by decide) (by decide) (by decide) (by decide)
    (by decide) (by decide) (by decide)).2.1
